import Mathlib

/-!
Shallow embedding of `src/main.py` (InterestsSimulator): the
`InvestmentAccount` class and its `simulate` method, together with proofs
of the specified properties of the monthly simulation loop.

Modelling conventions:
* Python floats are modelled by real numbers; `round(x, 2)` by `round2`.
* The DataFrame `self.data` is modelled as an ordered association list of
  (row label, record) pairs; `df.loc[label] = row` overwrites the row in
  place when the label is present and appends at the end otherwise, which
  is what `setLoc` does.
* The row label `f"{self.months[month-1]} {self.current_year + year - 1}"`
  is modelled by the pair (month, calendar year): the twelve month names
  are pairwise distinct, so the label string and this pair determine each
  other.
* `simulate` takes `years : Nat`; for a negative Python argument the
  `range(1, years + 1)` loop is empty exactly as for `years = 0`.
-/

namespace InterestsSimulator

/-- Row label of the DataFrame: (month number 1..12, calendar year). -/
abbrev Label := Nat × Nat

/-- The six constructor parameters of `InvestmentAccount.__init__`. -/
structure Config where
  name : String
  start_amount : ℝ
  management_fee : ℝ
  market_growth : ℝ
  dividend_yield : ℝ
  monthly_contribution : ℝ

/-- One emitted row of `self.data`, columns in source order:
"Somme totale", "Somme totale investie", "Bénéfices", "Frais de gestion",
"Montants totaux de frais de gestion", "Évolution du marché",
"Dividendes versés", "Contribution ajoutée". -/
structure Record where
  total : ℝ
  invested : ℝ
  profit : ℝ
  fees : ℝ
  feesCumulative : ℝ
  marketChange : ℝ
  dividends : ℝ
  contribution : ℝ

/-- The DataFrame `self.data`: an ordered list of labelled rows. -/
abbrev Ledger := List (Label × Record)

/-- The five running totals threaded through the monthly loop of
`simulate` (src/main.py lines 144-148). -/
structure SimState where
  total_amount : ℝ
  total_invested : ℝ
  total_fees : ℝ
  total_fees_cumulative : ℝ
  total_dividends : ℝ

noncomputable section

/-- Embedding of Python `round(x, 2)`: round to two decimal places.
(Python rounds half to even on floats; over ℝ we use Mathlib's `round`,
which can differ only on an exact half-cent tie — no statement below
depends on a tie.) -/
def round2 (x : ℝ) : ℝ := (round (100 * x) : ℤ) / 100

/-- Body of the inner monthly loop of `InvestmentAccount.simulate`
(src/main.py lines 152-182): updates the running totals and builds the
emitted (rounded) record for this month. `month` ranges over 1..12. -/
def monthUpdate (cfg : Config) (month : Nat) (s : SimState) : SimState × Record :=
  let total_amount := s.total_amount + cfg.monthly_contribution
  let total_invested := s.total_invested + cfg.monthly_contribution
  let growth_factor : ℝ := (1 + cfg.market_growth) ^ ((1 : ℝ) / 12)
  let market_change := total_amount * (growth_factor - 1)
  let total_amount := total_amount + market_change
  let fees := if month % 3 = 0 then total_amount * (cfg.management_fee / 100) / 4 else 0
  let total_amount := total_amount - fees
  let total_fees := s.total_fees + fees
  let total_fees_cumulative := s.total_fees_cumulative + fees
  let dividends := if month = 12 then total_amount * cfg.dividend_yield else 0
  let total_amount := total_amount + dividends
  let total_dividends := s.total_dividends + dividends
  (⟨total_amount, total_invested, total_fees, total_fees_cumulative, total_dividends⟩,
   ⟨round2 total_amount, round2 total_invested, round2 (total_amount - total_invested),
    round2 total_fees, round2 total_fees_cumulative, round2 market_change,
    round2 dividends, round2 cfg.monthly_contribution⟩)

/-- Pandas `df.loc[label] = row`: overwrite the row with this label if it
exists (keeping its position), otherwise append at the end. -/
def setLoc (d : Ledger) (k : Label) (r : Record) : Ledger :=
  if d.any (fun p => p.1 = k) then
    d.map (fun p => if p.1 = k then (k, r) else p)
  else d ++ [(k, r)]

/-- The inner loop `for month in range(1, 13)` of `simulate`, carrying the
running totals and the DataFrame: processes months `m, m+1, ..., m+k-1` of
calendar year `year`. -/
def runMonthsD (cfg : Config) (year : Nat) : Nat → Nat → SimState × Ledger → SimState × Ledger
  | _, 0, sd => sd
  | m, k + 1, sd =>
    let p := monthUpdate cfg m sd.1
    runMonthsD cfg year (m + 1) k (p.1, setLoc sd.2 (m, year) p.2)

/-- The outer loop `for year in range(1, years + 1)` of `simulate`:
processes `n` whole years, the first one labelled with calendar year
`yr`. -/
def runYearsD (cfg : Config) : Nat → Nat → SimState × Ledger → SimState × Ledger
  | _, 0, sd => sd
  | yr, n + 1, sd => runYearsD cfg (yr + 1) n (runMonthsD cfg yr 1 12 sd)

/-- The initial values of the running totals at the top of `simulate`
(src/main.py lines 144-148). -/
def initState (cfg : Config) : SimState :=
  ⟨cfg.start_amount, cfg.start_amount, 0, 0, 0⟩

/-- The engine: the six configuration parameters plus the DataFrame. -/
structure InvestmentAccount extends Config where
  data : Ledger

/-- `InvestmentAccount.__init__`: store the parameters, start with an
empty DataFrame (`self.current_year = 2025`; the fixed month-name list is
absorbed into the label model). -/
def mkAccount (cfg : Config) : InvestmentAccount := { cfg with data := [] }

/-- `InvestmentAccount.simulate(years)` (src/main.py lines 143-182): reset
the running totals, then run the year/month double loop, writing one row
per month into `self.data` via `.loc`. -/
def InvestmentAccount.simulate (acc : InvestmentAccount) (years : Nat) : InvestmentAccount :=
  { acc with data := (runYearsD acc.toConfig 2025 years (initState acc.toConfig, acc.data)).2 }

/-- Stage 1 of the documented monthly sequence: add the fixed monthly
contribution to both `total_amount` and `total_invested`. -/
def stepContribution (cfg : Config) (s : SimState) : SimState :=
  { s with
      total_amount := s.total_amount + cfg.monthly_contribution
      total_invested := s.total_invested + cfg.monthly_contribution }

/-- Stage 2: multiply the balance by the monthly growth factor
`(1 + annual_growth) ** (1/12)`, i.e. add
`market_change = total_amount * (growth_factor - 1)`. -/
def stepGrowth (cfg : Config) (s : SimState) : SimState :=
  { s with
      total_amount :=
        s.total_amount + s.total_amount * ((1 + cfg.market_growth) ^ ((1 : ℝ) / 12) - 1) }

/-- Stage 3: in months whose index within the year is a multiple of 3,
subtract `fee = total_amount * (annual_fee_percent / 100) / 4` computed on
the post-growth balance (and accumulate it into both fee totals). -/
def stepFee (cfg : Config) (month : Nat) (s : SimState) : SimState :=
  if month % 3 = 0 then
    let fee := s.total_amount * (cfg.management_fee / 100) / 4
    { s with
        total_amount := s.total_amount - fee
        total_fees := s.total_fees + fee
        total_fees_cumulative := s.total_fees_cumulative + fee }
  else s

/-- Stage 4: in the twelfth month of each year, add
`dividend = total_amount * dividend_yield` computed on the post-fee
balance. -/
def stepDividends (cfg : Config) (month : Nat) (s : SimState) : SimState :=
  if month = 12 then
    let dividend := s.total_amount * cfg.dividend_yield
    { s with
        total_amount := s.total_amount + dividend
        total_dividends := s.total_dividends + dividend }
  else s

/-- The unrounded monthly state transition, written as the composition of
the four documented stages. -/
def pureStep (cfg : Config) (month : Nat) (s : SimState) : SimState :=
  stepDividends cfg month (stepFee cfg month (stepGrowth cfg (stepContribution cfg s)))

/-- The emission list of the inner monthly loop: the labelled records
written for months `m, m+1, ..., m+k-1` of calendar year `year`, ignoring
the DataFrame threading. -/
def runMonths (cfg : Config) (year : Nat) : Nat → Nat → SimState →
    SimState × List (Label × Record)
  | _, 0, s => (s, [])
  | m, k + 1, s =>
    let p := monthUpdate cfg m s
    let q := runMonths cfg year (m + 1) k p.1
    (q.1, ((m, year), p.2) :: q.2)

/-- The emission list of the outer loop: the labelled records written for
`n` whole years, the first labelled with calendar year `yr`. -/
def runYears (cfg : Config) : Nat → Nat → SimState →
    SimState × List (Label × Record)
  | _, 0, s => (s, [])
  | yr, n + 1, s =>
    let p := runMonths cfg yr 1 12 s
    let q := runYears cfg (yr + 1) n p.1
    (q.1, p.2 ++ q.2)

/-- The running totals after processing months `m, m+1, ..., m+k-1`. -/
def iterMonths (cfg : Config) : Nat → Nat → SimState → SimState
  | _, 0, s => s
  | m, k + 1, s => iterMonths cfg (m + 1) k (monthUpdate cfg m s).1

/-- The exact (never rounded) running totals after `i` simulated months
starting from `s0` at a year boundary: month `i` (0-based) of the
simulation is month `i % 12 + 1` of its year.  Built from the four
unrounded stages only — no rounding occurs anywhere in this recursion. -/
def exactState (cfg : Config) (s0 : SimState) : Nat → SimState
  | 0 => s0
  | i + 1 => pureStep cfg (i % 12 + 1) (exactState cfg s0 i)

/-- The exact market change of a month entered in state `s`:
`(balance after contribution) * (growth_factor - 1)`. -/
def marketChangeAt (cfg : Config) (s : SimState) : ℝ :=
  (s.total_amount + cfg.monthly_contribution) *
    ((1 + cfg.market_growth) ^ ((1 : ℝ) / 12) - 1)

/-- The exact dividend of a month entered in state `s`: in month 12,
`dividend_yield` times the post-fee balance; otherwise zero. -/
def dividendAt (cfg : Config) (month : Nat) (s : SimState) : ℝ :=
  if month = 12 then
    (stepFee cfg month (stepGrowth cfg (stepContribution cfg s))).total_amount *
      cfg.dividend_yield
  else 0

/-- The record emitted for a month entered in state `s`: every field is
the two-decimal rounding of the corresponding exact unrounded value. -/
def emittedRecord (cfg : Config) (month : Nat) (s : SimState) : Record :=
  let s1 := pureStep cfg month s
  ⟨round2 s1.total_amount, round2 s1.total_invested,
   round2 (s1.total_amount - s1.total_invested),
   round2 s1.total_fees, round2 s1.total_fees_cumulative,
   round2 (marketChangeAt cfg s), round2 (dividendAt cfg month s),
   round2 cfg.monthly_contribution⟩

/-- Fold a list of `.loc` writes over a DataFrame. -/
def foldUpserts (d : Ledger) (l : List (Label × Record)) : Ledger :=
  l.foldl (fun d p => setLoc d p.1 p.2) d

/-- The row labels of a DataFrame, in order. -/
def keys (d : Ledger) : List Label := d.map Prod.fst

/-- The row labels produced for `n` whole years starting at calendar year
`yr`: months 1..12 of `yr`, then of `yr + 1`, and so on. -/
def yearKeys : Nat → Nat → List Label
  | _, 0 => []
  | yr, n + 1 => (List.range' 1 12).map (fun j => (j, yr)) ++ yearKeys (yr + 1) n

/-- All-zero configuration, used to instantiate universal statements. -/
def cfgZero : Config := ⟨"Z", 0, 0, 0, 0, 0⟩

/-- Configuration with a 100% annual management fee, zero growth and a 100
contribution: the quarterly fee in month 3 is 75. -/
def cfgFee : Config := ⟨"F", 0, 100, 0, 0, 100⟩

/-- Configuration whose monthly contribution is a tenth of a cent. -/
def cfgTenth : Config := ⟨"T", 0, 0, 0, 0, 1 / 1000⟩

/-- Configuration with a negative monthly contribution (the spec allows
these: brokerage costs netted out of the contribution). -/
def cfgNegC : Config := ⟨"N", 1000, 0, 0, 0, -100⟩

/-- Configuration whose amounts are whole numbers of currency units. -/
def cfgCents : Config := ⟨"C", 5, 0, 0, 0, 6⟩

end

/-- The state component of the loop body coincides with the four-stage
composition: contribution, then growth, then quarterly fee, then December
dividend. -/
theorem monthUpdate_fst (cfg : Config) (month : Nat) (s : SimState) :
    (monthUpdate cfg month s).1 = pureStep cfg month s := by
  unfold monthUpdate pureStep stepContribution stepGrowth stepFee stepDividends
  by_cases h3 : month % 3 = 0 <;> by_cases h12 : month = 12 <;> simp [h3, h12]

/-- The record component of the loop body is `emittedRecord`: each field
is the two-decimal rounding of the corresponding exact value. -/
theorem monthUpdate_snd (cfg : Config) (month : Nat) (s : SimState) :
    (monthUpdate cfg month s).2 = emittedRecord cfg month s := by
  unfold monthUpdate emittedRecord pureStep marketChangeAt dividendAt
  by_cases h3 : month % 3 = 0 <;> by_cases h12 : month = 12 <;>
    simp [h3, h12, stepContribution, stepGrowth, stepFee, stepDividends]

/-- The state component of the inner-loop emission list is `iterMonths`. -/
theorem runMonths_fst (cfg : Config) (y k : Nat) :
    ∀ (m : Nat) (s : SimState), (runMonths cfg y m k s).1 = iterMonths cfg m k s := by
  induction k with
  | zero => intro m s; rfl
  | succ k ih =>
    intro m s
    simpa [runMonths, iterMonths] using ih (m + 1) (monthUpdate cfg m s).1

/-- The inner loop emits one record per month. -/
theorem runMonths_length (cfg : Config) (y k : Nat) :
    ∀ (m : Nat) (s : SimState), (runMonths cfg y m k s).2.length = k := by
  induction k with
  | zero => intro m s; rfl
  | succ k ih =>
    intro m s
    simpa [runMonths] using ih (m + 1) (monthUpdate cfg m s).1

/-- Peeling the last month off `iterMonths`. -/
theorem iterMonths_succ_last (cfg : Config) (k : Nat) :
    ∀ (m : Nat) (s : SimState),
      iterMonths cfg m (k + 1) s = (monthUpdate cfg (m + k) (iterMonths cfg m k s)).1 := by
  induction k with
  | zero => intro m s; simp [iterMonths]
  | succ k ih =>
    intro m s
    have h1 : iterMonths cfg m (k + 1 + 1) s =
        iterMonths cfg (m + 1) (k + 1) (monthUpdate cfg m s).1 := rfl
    rw [h1, ih (m + 1) (monthUpdate cfg m s).1]
    have h2 : m + 1 + k = m + (k + 1) := by omega
    rw [h2]
    rfl

/-- Record `i` of the inner loop starting at month `m` is the record of
month `m + i`, emitted from the state reached after `i` further months. -/
theorem runMonths_get (cfg : Config) (y k : Nat) :
    ∀ (m : Nat) (s : SimState) (i : Nat), i < k →
      (runMonths cfg y m k s).2[i]? =
        some ((m + i, y), (monthUpdate cfg (m + i) (iterMonths cfg m i s)).2) := by
  induction k with
  | zero => intro m s i hi; omega
  | succ k ih =>
    intro m s i hi
    match i with
    | 0 => simp [runMonths, iterMonths]
    | Nat.succ i =>
      have h := ih (m + 1) (monthUpdate cfg m s).1 i (by omega)
      have harith : m + 1 + i = m + (i + 1) := by omega
      rw [harith] at h
      simpa [runMonths, iterMonths] using h

/-- The outer loop emits `12 * n` records for `n` years. -/
theorem runYears_length (cfg : Config) (n : Nat) :
    ∀ (yr : Nat) (s : SimState), (runYears cfg yr n s).2.length = 12 * n := by
  induction n with
  | zero => intro yr s; rfl
  | succ n ih =>
    intro yr s
    simp [runYears, runMonths_length, ih]
    omega

/-- Restarting `exactState` at a year boundary shifts the index by 12. -/
theorem exactState_shift (cfg : Config) (s0 : SimState) :
    ∀ j : Nat, exactState cfg (exactState cfg s0 12) j = exactState cfg s0 (j + 12) := by
  intro j
  induction j with
  | zero => rfl
  | succ j ih =>
    show pureStep cfg (j % 12 + 1) (exactState cfg (exactState cfg s0 12) j) =
      pureStep cfg ((j + 12) % 12 + 1) (exactState cfg s0 (j + 12))
    rw [ih, Nat.add_mod_right]

/-- Within the first simulated year, `iterMonths` from month 1 agrees with
the unrounded trajectory `exactState`. -/
theorem iterMonths_one_eq_exact (cfg : Config) (s0 : SimState) :
    ∀ i : Nat, i ≤ 12 → iterMonths cfg 1 i s0 = exactState cfg s0 i := by
  intro i
  induction i with
  | zero => intro _; rfl
  | succ i ih =>
    intro h
    rw [iterMonths_succ_last cfg i 1 s0, ih (by omega), monthUpdate_fst]
    show pureStep cfg (1 + i) (exactState cfg s0 i) =
      pureStep cfg (i % 12 + 1) (exactState cfg s0 i)
    rw [Nat.mod_eq_of_lt (by omega : i < 12), Nat.add_comm 1 i]

/-- Record `i` (0-based) of the full year loop: it carries the label of
month `i % 12 + 1` of calendar year `yr + i / 12`, and is emitted from the
exact unrounded state after `i` months. -/
theorem runYears_get (cfg : Config) (n : Nat) :
    ∀ (yr : Nat) (s0 : SimState) (i : Nat), i < 12 * n →
      (runYears cfg yr n s0).2[i]? =
        some ((i % 12 + 1, yr + i / 12),
          (monthUpdate cfg (i % 12 + 1) (exactState cfg s0 i)).2) := by
  induction n with
  | zero => intro yr s0 i hi; omega
  | succ n ih =>
    intro yr s0 i hi
    have hsplit : (runYears cfg yr (n + 1) s0).2 =
        (runMonths cfg yr 1 12 s0).2 ++
          (runYears cfg (yr + 1) n (runMonths cfg yr 1 12 s0).1).2 := rfl
    rw [hsplit]
    by_cases h12 : i < 12
    · rw [List.getElem?_append_left (by rw [runMonths_length]; exact h12)]
      rw [runMonths_get cfg yr 12 1 s0 i h12]
      rw [iterMonths_one_eq_exact cfg s0 i (by omega)]
      rw [Nat.mod_eq_of_lt h12, Nat.div_eq_of_lt h12, Nat.add_comm 1 i]
      rfl
    · push_neg at h12
      obtain ⟨j, rfl⟩ : ∃ j, i = j + 12 := ⟨i - 12, by omega⟩
      rw [List.getElem?_append_right (by rw [runMonths_length]; omega)]
      rw [runMonths_length, Nat.add_sub_cancel]
      rw [runMonths_fst, iterMonths_one_eq_exact cfg s0 12 le_rfl]
      rw [ih (yr + 1) (exactState cfg s0 12) j (by omega)]
      rw [exactState_shift, Nat.add_mod_right,
        Nat.add_div_right j (by norm_num : 0 < 12)]
      have : yr + 1 + j / 12 = yr + (j / 12 + 1) := by omega
      rw [this]

/-- The labels of a DataFrame with one more row on top. -/
theorem keys_cons (a : Label × Record) (l : List (Label × Record)) :
    keys (a :: l) = a.1 :: keys l := rfl

/-- The `.loc` membership test succeeds exactly when the label is among
the row labels. -/
theorem any_eq_true_of_mem {d : Ledger} {k : Label} (h : k ∈ keys d) :
    (d.any (fun p => p.1 = k)) = true := by
  rw [List.any_eq_true]
  obtain ⟨p, hp, hpk⟩ := List.mem_map.mp h
  exact ⟨p, hp, by simp [hpk]⟩

/-- A `.loc` write with an absent label appends the row at the end. -/
theorem setLoc_of_not_mem {d : Ledger} {k : Label} (r : Record) (h : k ∉ keys d) :
    setLoc d k r = d ++ [(k, r)] := by
  unfold setLoc
  have hany : (d.any (fun p => p.1 = k)) = false := by
    rw [List.any_eq_false]
    intro p hp
    simp only [decide_eq_true_eq]
    intro hpk
    exact h (by rw [← hpk]; exact List.mem_map_of_mem Prod.fst hp)
  rw [hany]
  simp

/-- A `.loc` write with a present label keeps the row labels unchanged. -/
theorem keys_setLoc_of_mem {d : Ledger} {k : Label} (r : Record) (h : k ∈ keys d) :
    keys (setLoc d k r) = keys d := by
  unfold setLoc
  rw [if_pos (any_eq_true_of_mem h)]
  unfold keys
  rw [List.map_map]
  apply List.map_congr_left
  intro p _
  by_cases hpk : p.1 = k <;> simp [hpk]

/-- A `.loc` write with a present label keeps the number of rows. -/
theorem length_setLoc_of_mem {d : Ledger} {k : Label} (r : Record) (h : k ∈ keys d) :
    (setLoc d k r).length = d.length := by
  unfold setLoc
  rw [if_pos (any_eq_true_of_mem h)]
  exact List.length_map d _

/-- Writing rows whose labels are fresh and pairwise distinct just appends
them in order. -/
theorem foldUpserts_of_fresh (l : List (Label × Record)) :
    ∀ d : Ledger, (keys l).Nodup → (∀ k ∈ keys l, k ∉ keys d) →
      foldUpserts d l = d ++ l := by
  induction l with
  | nil => intro d _ _; simp [foldUpserts]
  | cons a l ih =>
    intro d hnd hf
    have hstep : foldUpserts d (a :: l) = foldUpserts (setLoc d a.1 a.2) l := rfl
    have hka : a.1 ∉ keys d := hf a.1 (by rw [keys_cons]; exact List.mem_cons_self _ _)
    rw [hstep, setLoc_of_not_mem a.2 hka]
    rw [keys_cons] at hnd hf
    have hnd' : (keys l).Nodup := hnd.of_cons
    have hhead : a.1 ∉ keys l := (List.nodup_cons.mp hnd).1
    rw [ih (d ++ [(a.1, a.2)]) hnd']
    · simp
    · intro k hk
      unfold keys
      rw [List.map_append]
      rw [List.mem_append]
      intro hcase
      rcases hcase with hcase | hcase
      · exact hf k (List.mem_cons_of_mem _ hk) hcase
      · simp only [List.map_cons, List.map_nil, List.mem_singleton] at hcase
        rw [hcase] at hk
        exact hhead hk

/-- Writing rows whose labels are all already present replaces in place:
the number of rows and the label list are unchanged. -/
theorem foldUpserts_of_subset (l : List (Label × Record)) :
    ∀ d : Ledger, (∀ k ∈ keys l, k ∈ keys d) →
      keys (foldUpserts d l) = keys d ∧ (foldUpserts d l).length = d.length := by
  induction l with
  | nil => intro d _; exact ⟨rfl, rfl⟩
  | cons a l ih =>
    intro d hsub
    rw [keys_cons] at hsub
    have hka : a.1 ∈ keys d := hsub a.1 (List.mem_cons_self _ _)
    have hstep : foldUpserts d (a :: l) = foldUpserts (setLoc d a.1 a.2) l := rfl
    have hkeys := keys_setLoc_of_mem a.2 hka
    have hlen := length_setLoc_of_mem a.2 hka
    have hsub' : ∀ k ∈ keys l, k ∈ keys (setLoc d a.1 a.2) := by
      intro k hk
      rw [hkeys]
      exact hsub k (List.mem_cons_of_mem _ hk)
    obtain ⟨h1, h2⟩ := ih (setLoc d a.1 a.2) hsub'
    rw [hstep]
    exact ⟨by rw [h1, hkeys], by rw [h2, hlen]⟩

/-- The DataFrame-threading inner loop is the emission list folded into
the DataFrame with `.loc` writes. -/
theorem runMonthsD_eq (cfg : Config) (y k : Nat) :
    ∀ (m : Nat) (s : SimState) (d : Ledger),
      runMonthsD cfg y m k (s, d) =
        ((runMonths cfg y m k s).1, foldUpserts d (runMonths cfg y m k s).2) := by
  induction k with
  | zero => intro m s d; rfl
  | succ k ih =>
    intro m s d
    have h1 : runMonthsD cfg y m (k + 1) (s, d) =
        runMonthsD cfg y (m + 1) k
          ((monthUpdate cfg m s).1, setLoc d (m, y) (monthUpdate cfg m s).2) := rfl
    rw [h1, ih]
    rfl

/-- The DataFrame-threading year loop is the emission list folded into the
DataFrame with `.loc` writes. -/
theorem runYearsD_eq (cfg : Config) (n : Nat) :
    ∀ (yr : Nat) (s : SimState) (d : Ledger),
      runYearsD cfg yr n (s, d) =
        ((runYears cfg yr n s).1, foldUpserts d (runYears cfg yr n s).2) := by
  induction n with
  | zero => intro yr s d; rfl
  | succ n ih =>
    intro yr s d
    have h1 : runYearsD cfg yr (n + 1) (s, d) =
        runYearsD cfg (yr + 1) n (runMonthsD cfg yr 1 12 (s, d)) := rfl
    rw [h1, runMonthsD_eq, ih]
    have h2 : (runYears cfg yr (n + 1) s).2 =
        (runMonths cfg yr 1 12 s).2 ++
          (runYears cfg (yr + 1) n (runMonths cfg yr 1 12 s).1).2 := rfl
    have h3 : (runYears cfg yr (n + 1) s).1 =
        (runYears cfg (yr + 1) n (runMonths cfg yr 1 12 s).1).1 := rfl
    rw [h2, h3]
    unfold foldUpserts
    rw [List.foldl_append]

/-- The labels emitted by the inner loop are the months `m, ..., m+k-1`
of year `y`. -/
theorem keys_runMonths (cfg : Config) (y k : Nat) :
    ∀ (m : Nat) (s : SimState),
      keys (runMonths cfg y m k s).2 = (List.range' m k).map (fun j => (j, y)) := by
  induction k with
  | zero => intro m s; rfl
  | succ k ih =>
    intro m s
    rw [List.range'_succ]
    have h1 : keys (runMonths cfg y m (k + 1) s).2 =
        (m, y) :: keys (runMonths cfg y (m + 1) k (monthUpdate cfg m s).1).2 := rfl
    rw [h1, ih]
    rfl

/-- The labels emitted by the year loop are `yearKeys`, independently of
the configuration and starting state. -/
theorem keys_runYears (cfg : Config) (n : Nat) :
    ∀ (yr : Nat) (s : SimState), keys (runYears cfg yr n s).2 = yearKeys yr n := by
  induction n with
  | zero => intro yr s; rfl
  | succ n ih =>
    intro yr s
    have h1 : keys (runYears cfg yr (n + 1) s).2 =
        keys (runMonths cfg yr 1 12 s).2 ++
          keys (runYears cfg (yr + 1) n (runMonths cfg yr 1 12 s).1).2 := by
      unfold keys
      have : (runYears cfg yr (n + 1) s).2 =
          (runMonths cfg yr 1 12 s).2 ++
            (runYears cfg (yr + 1) n (runMonths cfg yr 1 12 s).1).2 := rfl
      rw [this, List.map_append]
    rw [h1, keys_runMonths, ih]
    rfl

/-- Every label in `yearKeys yr n` has its calendar year in
`[yr, yr + n)`. -/
theorem yearKeys_year_bound (n : Nat) :
    ∀ (yr : Nat) (p : Label), p ∈ yearKeys yr n → yr ≤ p.2 ∧ p.2 < yr + n := by
  induction n with
  | zero => intro yr p hp; cases hp
  | succ n ih =>
    intro yr p hp
    unfold yearKeys at hp
    rw [List.mem_append] at hp
    rcases hp with hp | hp
    · obtain ⟨j, _, rfl⟩ := List.mem_map.mp hp
      omega
    · have := ih (yr + 1) p hp
      omega

/-- The labels of distinct simulated months are pairwise distinct. -/
theorem yearKeys_nodup (n : Nat) : ∀ yr : Nat, (yearKeys yr n).Nodup := by
  induction n with
  | zero => intro yr; exact List.nodup_nil
  | succ n ih =>
    intro yr
    unfold yearKeys
    rw [List.nodup_append]
    refine ⟨?_, ih (yr + 1), ?_⟩
    · exact (List.nodup_range' _ _).map (fun a b h => congrArg Prod.fst h)
    · intro p hp hp'
      obtain ⟨j, _, rfl⟩ := List.mem_map.mp hp
      have := yearKeys_year_bound n (yr + 1) (j, yr) hp'
      omega

/-- On a freshly constructed engine, `simulate` produces exactly the
emission list of the year/month double loop: every `.loc` write appends. -/
theorem simulate_fresh_data (cfg : Config) (y : Nat) :
    ((mkAccount cfg).simulate y).data = (runYears cfg 2025 y (initState cfg)).2 := by
  show (runYearsD cfg 2025 y (initState cfg, [])).2 = _
  rw [runYearsD_eq]
  show foldUpserts [] (runYears cfg 2025 y (initState cfg)).2 = _
  rw [foldUpserts_of_fresh _ [] (by rw [keys_runYears]; exact yearKeys_nodup y 2025)
    (by intro k _ hk; cases hk)]
  rfl

/-- On a freshly constructed engine, the ledger has `12 * y` rows. -/
theorem simulate_fresh_length (cfg : Config) (y : Nat) :
    ((mkAccount cfg).simulate y).data.length = 12 * y := by
  rw [simulate_fresh_data, runYears_length]

/-- On a freshly constructed engine, row `i` of the ledger carries the
label of month `i % 12 + 1` of calendar year `2025 + i / 12` and is the
rounded snapshot of the exact unrounded state after `i + 1` months. -/
theorem simulate_fresh_get (cfg : Config) (y i : Nat) (h : i < 12 * y) :
    ((mkAccount cfg).simulate y).data[i]? =
      some ((i % 12 + 1, 2025 + i / 12),
        emittedRecord cfg (i % 12 + 1) (exactState cfg (initState cfg) i)) := by
  rw [simulate_fresh_data, runYears_get cfg y 2025 (initState cfg) i h, monthUpdate_snd]

/-- Rounding an integer value changes nothing. -/
theorem round2_intCast (n : ℤ) : round2 (n : ℝ) = n := by
  unfold round2
  rw [show (100 : ℝ) * (n : ℝ) = ((100 * n : ℤ) : ℝ) by push_cast; ring, round_intCast]
  push_cast
  exact mul_div_cancel_left₀ (n : ℝ) (by norm_num)

/-- Rounding a whole number of cents changes nothing. -/
theorem round2_int_div (n : ℤ) : round2 ((n : ℝ) / 100) = (n : ℝ) / 100 := by
  unfold round2
  rw [show (100 : ℝ) * ((n : ℝ) / 100) = (n : ℝ) by field_simp, round_intCast]

/-- Rounding zero gives zero. -/
theorem round2_zero : round2 0 = 0 := by
  unfold round2
  norm_num

/-- Two-decimal rounding is monotone. -/
theorem round2_mono {x y : ℝ} (h : x ≤ y) : round2 x ≤ round2 y := by
  unfold round2
  have hr : round (100 * x) ≤ round (100 * y) := by
    rw [round_eq, round_eq]
    exact Int.floor_mono (by linarith)
  have hc : ((round (100 * x) : ℤ) : ℝ) ≤ ((round (100 * y) : ℤ) : ℝ) := Int.cast_le.mpr hr
  exact (div_le_div_iff_of_pos_right (by norm_num : (0 : ℝ) < 100)).mpr hc

/-- The unrounded step adds the contribution (and nothing else) to
`total_invested`. -/
theorem pureStep_invested (cfg : Config) (month : Nat) (s : SimState) :
    (pureStep cfg month s).total_invested =
      s.total_invested + cfg.monthly_contribution := by
  unfold pureStep stepDividends stepFee stepGrowth stepContribution
  by_cases h3 : month % 3 = 0 <;> by_cases h12 : month = 12 <;> simp [h3, h12]

/-- After `n` months, the exact invested principal is the start amount
plus `n` contributions. -/
theorem exactState_invested (cfg : Config) (s0 : SimState) :
    ∀ n : Nat, (exactState cfg s0 n).total_invested =
      s0.total_invested + n * cfg.monthly_contribution := by
  intro n
  induction n with
  | zero => simp [exactState]
  | succ n ih =>
    show (pureStep cfg (n % 12 + 1) (exactState cfg s0 n)).total_invested = _
    rw [pureStep_invested, ih]
    push_cast
    ring

/-- The unrounded step adds the same fee to `total_fees` and to
`total_fees_cumulative`, so their equality is preserved. -/
theorem pureStep_fees_eq (cfg : Config) (month : Nat) (s : SimState)
    (h : s.total_fees = s.total_fees_cumulative) :
    (pureStep cfg month s).total_fees = (pureStep cfg month s).total_fees_cumulative := by
  unfold pureStep stepDividends stepFee stepGrowth stepContribution
  by_cases h3 : month % 3 = 0 <;> by_cases h12 : month = 12 <;> simp [h3, h12, h]

/-- `total_fees` and `total_fees_cumulative` stay equal along the whole
trajectory: both start at zero and receive the same increments. -/
theorem exactState_fees_eq (cfg : Config) (s0 : SimState)
    (h : s0.total_fees = s0.total_fees_cumulative) :
    ∀ n : Nat, (exactState cfg s0 n).total_fees =
      (exactState cfg s0 n).total_fees_cumulative := by
  intro n
  induction n with
  | zero => exact h
  | succ n ih => exact pureStep_fees_eq cfg (n % 12 + 1) (exactState cfg s0 n) ih

/-- With a zero fee rate, nonnegative growth, contribution and yield, one
unrounded monthly step never decreases a nonnegative balance. -/
theorem pureStep_total_mono (cfg : Config) (month : Nat) (s : SimState)
    (hfee : cfg.management_fee = 0) (hg : 0 ≤ cfg.market_growth)
    (hc : 0 ≤ cfg.monthly_contribution) (hd : 0 ≤ cfg.dividend_yield)
    (ht : 0 ≤ s.total_amount) :
    s.total_amount ≤ (pureStep cfg month s).total_amount := by
  have hgf : 1 ≤ (1 + cfg.market_growth) ^ ((1 : ℝ) / 12) :=
    Real.one_le_rpow (by linarith) (by norm_num)
  have hu : 0 ≤ s.total_amount + cfg.monthly_contribution := by linarith
  have h1 : 0 ≤ (s.total_amount + cfg.monthly_contribution) *
      ((1 + cfg.market_growth) ^ ((1 : ℝ) / 12) - 1) := mul_nonneg hu (by linarith)
  have h2 : 0 ≤ (s.total_amount + cfg.monthly_contribution +
      (s.total_amount + cfg.monthly_contribution) *
        ((1 + cfg.market_growth) ^ ((1 : ℝ) / 12) - 1)) * cfg.dividend_yield :=
    mul_nonneg (by linarith) hd
  unfold pureStep stepDividends stepFee stepGrowth stepContribution
  by_cases h3 : month % 3 = 0 <;> by_cases h12 : month = 12 <;>
    simp [h3, h12, hfee] <;> linarith

/-- Under the same hypotheses, the exact balance stays nonnegative. -/
theorem exactState_total_nonneg (cfg : Config) (s0 : SimState)
    (hfee : cfg.management_fee = 0) (hg : 0 ≤ cfg.market_growth)
    (hc : 0 ≤ cfg.monthly_contribution) (hd : 0 ≤ cfg.dividend_yield)
    (hs0 : 0 ≤ s0.total_amount) :
    ∀ n : Nat, 0 ≤ (exactState cfg s0 n).total_amount := by
  intro n
  induction n with
  | zero => exact hs0
  | succ n ih =>
    exact le_trans ih
      (pureStep_total_mono cfg (n % 12 + 1) (exactState cfg s0 n) hfee hg hc hd ih)

/-- Under the same hypotheses, the exact balance is monotone in time. -/
theorem exactState_total_mono (cfg : Config) (s0 : SimState)
    (hfee : cfg.management_fee = 0) (hg : 0 ≤ cfg.market_growth)
    (hc : 0 ≤ cfg.monthly_contribution) (hd : 0 ≤ cfg.dividend_yield)
    (hs0 : 0 ≤ s0.total_amount) (n : Nat) :
    (exactState cfg s0 n).total_amount ≤ (exactState cfg s0 (n + 1)).total_amount :=
  pureStep_total_mono cfg (n % 12 + 1) (exactState cfg s0 n) hfee hg hc hd
    (exactState_total_nonneg cfg s0 hfee hg hc hd hs0 n)

/-- With the all-zero configuration, one unrounded step fixes the zero
state. -/
theorem pureStep_cfgZero (m : Nat) :
    pureStep cfgZero m ⟨0, 0, 0, 0, 0⟩ = ⟨0, 0, 0, 0, 0⟩ := by
  unfold pureStep stepDividends stepFee stepGrowth stepContribution cfgZero
  by_cases h3 : m % 3 = 0 <;> by_cases h12 : m = 12 <;> simp [h3, h12]

/-- With the all-zero configuration, the exact trajectory is identically
zero. -/
theorem exactState_cfgZero (n : Nat) :
    exactState cfgZero (initState cfgZero) n = ⟨0, 0, 0, 0, 0⟩ := by
  induction n with
  | zero => rfl
  | succ n ih =>
    show pureStep cfgZero (n % 12 + 1) (exactState cfgZero (initState cfgZero) n) = _
    rw [ih, pureStep_cfgZero]

/-- With the all-zero configuration, every emitted record is all-zero. -/
theorem emittedRecord_cfgZero (m : Nat) :
    emittedRecord cfgZero m ⟨0, 0, 0, 0, 0⟩ = ⟨0, 0, 0, 0, 0, 0, 0, 0⟩ := by
  unfold emittedRecord marketChangeAt dividendAt
  rw [pureStep_cfgZero]
  by_cases h12 : m = 12 <;>
    simp [h12, cfgZero, round2_zero, stepFee, stepGrowth, stepContribution]

/-- Row `i` of the all-zero configuration's fresh ledger. -/
theorem simulate_cfgZero_get (y i : Nat) (h : i < 12 * y) :
    ((mkAccount cfgZero).simulate y).data[i]? =
      some ((i % 12 + 1, 2025 + i / 12), ⟨0, 0, 0, 0, 0, 0, 0, 0⟩) := by
  rw [simulate_fresh_get cfgZero y i h, exactState_cfgZero, emittedRecord_cfgZero]

/-- C1: for every configuration and state, the monthly step applies exactly
the sequence contribution → growth → quarterly fee (months ≡ 0 mod 3) →
December dividend (month 12) to the unrounded running totals, with
contribution before growth and fee before dividend. -/
theorem c1_month_step_sequence (cfg : Config) (month : Nat) (s : SimState) :
    (monthUpdate cfg month s).1 =
      stepDividends cfg month (stepFee cfg month (stepGrowth cfg (stepContribution cfg s))) :=
  monthUpdate_fst cfg month s

/-- C3 evaluation: `simulate(0)` performs no loop iteration and returns the
account unchanged — no invalid-argument failure is raised and the ledger is
left exactly as it was (empty on a fresh engine). -/
theorem c3_simulate_zero_is_noop (acc : InvestmentAccount) :
    acc.simulate 0 = acc := rfl

/-- C9: `simulate` leaves all six configuration fields unchanged; only
`data` is written. -/
theorem c9_simulate_preserves_config (acc : InvestmentAccount) (years : Nat) :
    (acc.simulate years).name = acc.name ∧
    (acc.simulate years).start_amount = acc.start_amount ∧
    (acc.simulate years).management_fee = acc.management_fee ∧
    (acc.simulate years).market_growth = acc.market_growth ∧
    (acc.simulate years).dividend_yield = acc.dividend_yield ∧
    (acc.simulate years).monthly_contribution = acc.monthly_contribution :=
  ⟨rfl, rfl, rfl, rfl, rfl, rfl⟩

/-- C2 (code evaluation at the failing input): with a 100% annual fee,
zero growth and a 100 contribution over one year, the "Frais de gestion"
field of record index 3 — a non-fee month — is 75, not 0: the column
stores the running cumulative `total_fees`, which still holds the month-3
quarterly fee. -/
theorem c2_fee_field_nonzero_in_nonfee_month :
    (((mkAccount cfgFee).simulate 1).data.map (fun p => p.2.fees))[3]? =
        some (75 : ℝ) ∧ (75 : ℝ) ≠ 0 := by
  refine ⟨?_, by norm_num⟩
  have f1 : exactState cfgFee (initState cfgFee) 1 = ⟨100, 100, 0, 0, 0⟩ := by
    show pureStep cfgFee (0 % 12 + 1) (initState cfgFee) = _
    unfold pureStep stepDividends stepFee stepGrowth stepContribution initState cfgFee
    norm_num [Real.one_rpow]
  have f2 : exactState cfgFee (initState cfgFee) 2 = ⟨200, 200, 0, 0, 0⟩ := by
    show pureStep cfgFee (1 % 12 + 1) (exactState cfgFee (initState cfgFee) 1) = _
    rw [f1]
    unfold pureStep stepDividends stepFee stepGrowth stepContribution cfgFee
    norm_num [Real.one_rpow]
  have f3 : exactState cfgFee (initState cfgFee) 3 = ⟨225, 300, 75, 75, 0⟩ := by
    show pureStep cfgFee (2 % 12 + 1) (exactState cfgFee (initState cfgFee) 2) = _
    rw [f2]
    unfold pureStep stepDividends stepFee stepGrowth stepContribution cfgFee
    norm_num [Real.one_rpow]
  have f4 : (exactState cfgFee (initState cfgFee) 4).total_fees = 75 := by
    show (pureStep cfgFee (3 % 12 + 1) (exactState cfgFee (initState cfgFee) 3)).total_fees = _
    rw [f3]
    unfold pureStep stepDividends stepFee stepGrowth stepContribution cfgFee
    norm_num
  rw [List.getElem?_map, simulate_fresh_get cfgFee 1 3 (by norm_num)]
  simp only [Option.map_some']
  congr 1
  show round2 ((exactState cfgFee (initState cfgFee) (3 + 1)).total_fees) = 75
  rw [show (3 : Nat) + 1 = 4 from rfl, f4,
    show (75 : ℝ) = ((75 : ℤ) : ℝ) by norm_num, round2_intCast]

/-- C4 counterexample: after `simulate(2)` followed by `simulate(1)` the
ledger still has 24 rows, not `1 * 12`: the 12 rows re-emitted by the
second call overwrite existing month/year labels in place instead of
replacing the ledger. -/
theorem c4_reinvocation_counterexample :
    (((mkAccount cfgZero).simulate 2).simulate 1).data.length = 24 ∧
      24 ≠ 1 * 12 := by
  refine ⟨?_, by norm_num⟩
  have hdata2 : ((mkAccount cfgZero).simulate 2).data =
      (runYears cfgZero 2025 2 (initState cfgZero)).2 := simulate_fresh_data cfgZero 2
  have hstep : (((mkAccount cfgZero).simulate 2).simulate 1).data =
      (runYearsD cfgZero 2025 1
        (initState cfgZero, ((mkAccount cfgZero).simulate 2).data)).2 := rfl
  rw [hstep, runYearsD_eq, hdata2]
  have hsub0 : ∀ k ∈ yearKeys 2025 1, k ∈ yearKeys 2025 2 := by decide
  have hsub : ∀ k ∈ keys (runYears cfgZero 2025 1 (initState cfgZero)).2,
      k ∈ keys (runYears cfgZero 2025 2 (initState cfgZero)).2 := by
    rw [keys_runYears, keys_runYears]
    exact hsub0
  obtain ⟨-, hlen⟩ :=
    foldUpserts_of_subset (runYears cfgZero 2025 1 (initState cfgZero)).2
      (runYears cfgZero 2025 2 (initState cfgZero)).2 hsub
  rw [hlen, runYears_length]

/-- C4 (amended): after `simulate(years)` on a freshly constructed engine,
the ledger contains exactly `years * 12` monthly records. -/
theorem c4_fresh_ledger_length (cfg : Config) (years : Nat) (_h : 1 ≤ years) :
    ((mkAccount cfg).simulate years).data.length = years * 12 := by
  rw [simulate_fresh_length, Nat.mul_comm]

/-- Witness for C4 at a concrete configuration and horizon. -/
theorem c4_fresh_ledger_length_witness :
    1 ≤ 1 ∧ ((mkAccount cfgZero).simulate 1).data.length = 1 * 12 :=
  ⟨le_refl 1, c4_fresh_ledger_length cfgZero 1 (le_refl 1)⟩

/-- C5: rounding is applied only to the emitted snapshot: row `i` of the
ledger is, field by field, the two-decimal rounding of the exact values of
the unrounded trajectory `exactState`, which itself is carried forward
with no rounding anywhere. -/
theorem c5_round_only_at_emission (cfg : Config) (years i : Nat)
    (h : i < 12 * years) :
    ((mkAccount cfg).simulate years).data[i]? =
      some ((i % 12 + 1, 2025 + i / 12),
        emittedRecord cfg (i % 12 + 1) (exactState cfg (initState cfg) i)) :=
  simulate_fresh_get cfg years i h

/-- Witness for C5 at the all-zero configuration, one year, row 0. -/
theorem c5_round_only_at_emission_witness :
    0 < 12 * 1 ∧
      ((mkAccount cfgZero).simulate 1).data[0]? =
        some ((0 % 12 + 1, 2025 + 0 / 12),
          emittedRecord cfgZero (0 % 12 + 1)
            (exactState cfgZero (initState cfgZero) 0)) :=
  ⟨by norm_num, c5_round_only_at_emission cfgZero 1 0 (by norm_num)⟩

/-- C6: the "Dividendes versés" field of row `i` is zero unless
`i % 12 = 11` (the December row), where it is the rounding of
`dividend_yield` times the post-fee balance. -/
theorem c6_dividend_only_in_december (cfg : Config) (years i : Nat)
    (h : i < 12 * years) :
    (((mkAccount cfg).simulate years).data.map (fun p => p.2.dividends))[i]? =
      some (if i % 12 = 11 then
          round2 (dividendAt cfg 12 (exactState cfg (initState cfg) i))
        else 0) := by
  rw [List.getElem?_map, simulate_fresh_get cfg years i h]
  simp only [Option.map_some']
  congr 1
  show round2 (dividendAt cfg (i % 12 + 1) (exactState cfg (initState cfg) i)) = _
  by_cases h11 : i % 12 = 11
  · rw [if_pos h11, h11]
  · rw [if_neg h11]
    have hz : dividendAt cfg (i % 12 + 1) (exactState cfg (initState cfg) i) = 0 := by
      unfold dividendAt
      rw [if_neg (by omega : ¬ i % 12 + 1 = 12)]
    rw [hz, round2_zero]

/-- Witness for C6 at the all-zero configuration, one year, row 0. -/
theorem c6_dividend_only_in_december_witness :
    0 < 12 * 1 ∧
      (((mkAccount cfgZero).simulate 1).data.map (fun p => p.2.dividends))[0]? =
        some (if 0 % 12 = 11 then
            round2 (dividendAt cfgZero 12 (exactState cfgZero (initState cfgZero) 0))
          else 0) :=
  ⟨by norm_num, c6_dividend_only_in_december cfgZero 1 0 (by norm_num)⟩

/-- C7 counterexample: with a contribution of a tenth of a cent and no
fee, the final "Somme totale investie" field after one year is the rounded
0.01, not the exact `start_amount + c * 12 * 1 = 0.012`. -/
theorem c7_subcent_counterexample :
    (((mkAccount cfgTenth).simulate 1).data.map (fun p => p.2.invested))[11]? =
        some ((1 : ℝ) / 100) ∧
      ((1 : ℝ) / 100) ≠
        cfgTenth.start_amount + cfgTenth.monthly_contribution * 12 * 1 := by
  constructor
  · rw [List.getElem?_map, simulate_fresh_get cfgTenth 1 11 (by norm_num)]
    simp only [Option.map_some']
    congr 1
    show round2 ((exactState cfgTenth (initState cfgTenth) (11 + 1)).total_invested) =
      1 / 100
    rw [show (11 : Nat) + 1 = 12 from rfl, exactState_invested]
    have hval : (initState cfgTenth).total_invested +
        ((12 : ℕ) : ℝ) * cfgTenth.monthly_contribution = 12 / 1000 := by
      norm_num [initState, cfgTenth]
    rw [hval]
    unfold round2
    rw [show (100 : ℝ) * (12 / 1000) = 6 / 5 by norm_num, round_eq]
    norm_num
  · norm_num [cfgTenth]

/-- C7 (amended): with a zero fee rate and a start amount and contribution
that are whole numbers of cents, the final row's invested-principal field
equals `start_amount + c * 12 * years` exactly. -/
theorem c7_final_invested_exact (cfg : Config) (years : Nat) (a b : ℤ)
    (_hfee : cfg.management_fee = 0) (hy : 1 ≤ years)
    (hsa : cfg.start_amount = (a : ℝ) / 100)
    (hmc : cfg.monthly_contribution = (b : ℝ) / 100) :
    (((mkAccount cfg).simulate years).data.map
        (fun p => p.2.invested))[12 * years - 1]? =
      some (cfg.start_amount + cfg.monthly_contribution * 12 * years) := by
  have hlt : 12 * years - 1 < 12 * years := by omega
  rw [List.getElem?_map, simulate_fresh_get cfg years _ hlt]
  simp only [Option.map_some']
  congr 1
  have hidx : 12 * years - 1 + 1 = 12 * years := by omega
  show round2
      ((exactState cfg (initState cfg) (12 * years - 1 + 1)).total_invested) = _
  rw [hidx, exactState_invested]
  have hinit : (initState cfg).total_invested = cfg.start_amount := rfl
  rw [hinit, hsa, hmc]
  have hval : (a : ℝ) / 100 + ((12 * years : ℕ) : ℝ) * ((b : ℝ) / 100) =
      ((a + 12 * years * b : ℤ) : ℝ) / 100 := by push_cast; ring
  rw [hval, round2_int_div]
  push_cast
  ring

/-- Witness for C7 at whole-unit amounts: start 5, contribution 6, one
year. -/
theorem c7_final_invested_exact_witness :
    (cfgCents.management_fee = 0 ∧ 1 ≤ 1 ∧
        cfgCents.start_amount = ((500 : ℤ) : ℝ) / 100 ∧
        cfgCents.monthly_contribution = ((600 : ℤ) : ℝ) / 100) ∧
      (((mkAccount cfgCents).simulate 1).data.map
          (fun p => p.2.invested))[12 * 1 - 1]? =
        some (cfgCents.start_amount + cfgCents.monthly_contribution * 12 * ((1 : ℕ) : ℝ)) :=
  ⟨⟨rfl, le_refl 1, by norm_num [cfgCents], by norm_num [cfgCents]⟩,
    c7_final_invested_exact cfgCents 1 500 600 rfl (le_refl 1)
      (by norm_num [cfgCents]) (by norm_num [cfgCents])⟩

/-- C8 counterexample: with a negative monthly contribution (allowed by
the configuration), zero fee and zero growth, the total-balance column
decreases from row 0 (900) to row 1 (800). -/
theorem c8_negative_contribution_counterexample :
    (((mkAccount cfgNegC).simulate 1).data.map (fun p => p.2.total))[0]? =
        some (900 : ℝ) ∧
      (((mkAccount cfgNegC).simulate 1).data.map (fun p => p.2.total))[1]? =
        some (800 : ℝ) ∧
      ¬ ((900 : ℝ) ≤ 800) := by
  have e1 : exactState cfgNegC (initState cfgNegC) 1 = ⟨900, 900, 0, 0, 0⟩ := by
    show pureStep cfgNegC (0 % 12 + 1) (initState cfgNegC) = _
    unfold pureStep stepDividends stepFee stepGrowth stepContribution initState cfgNegC
    norm_num [Real.one_rpow]
  have e2 : exactState cfgNegC (initState cfgNegC) 2 = ⟨800, 800, 0, 0, 0⟩ := by
    show pureStep cfgNegC (1 % 12 + 1) (exactState cfgNegC (initState cfgNegC) 1) = _
    rw [e1]
    unfold pureStep stepDividends stepFee stepGrowth stepContribution cfgNegC
    norm_num [Real.one_rpow]
  refine ⟨?_, ?_, by norm_num⟩
  · rw [List.getElem?_map, simulate_fresh_get cfgNegC 1 0 (by norm_num)]
    simp only [Option.map_some']
    congr 1
    show round2 ((exactState cfgNegC (initState cfgNegC) (0 + 1)).total_amount) = 900
    rw [show (0 : Nat) + 1 = 1 from rfl, e1,
      show (900 : ℝ) = ((900 : ℤ) : ℝ) by norm_num, round2_intCast]
  · rw [List.getElem?_map, simulate_fresh_get cfgNegC 1 1 (by norm_num)]
    simp only [Option.map_some']
    congr 1
    show round2 ((exactState cfgNegC (initState cfgNegC) (1 + 1)).total_amount) = 800
    rw [show (1 : Nat) + 1 = 2 from rfl, e2,
      show (800 : ℝ) = ((800 : ℤ) : ℝ) by norm_num, round2_intCast]

/-- C8 (amended): with zero fee, nonnegative growth, and nonnegative start
amount, contribution and dividend yield, the total-balance column is
non-decreasing from each row to the next. -/
theorem c8_balance_monotone (cfg : Config) (years i : Nat) (a b : ℝ)
    (hfee : cfg.management_fee = 0) (hg : 0 ≤ cfg.market_growth)
    (hs : 0 ≤ cfg.start_amount) (hc : 0 ≤ cfg.monthly_contribution)
    (hd : 0 ≤ cfg.dividend_yield)
    (ha : (((mkAccount cfg).simulate years).data.map (fun p => p.2.total))[i]? =
      some a)
    (hb : (((mkAccount cfg).simulate years).data.map
      (fun p => p.2.total))[i + 1]? = some b) :
    a ≤ b := by
  have hlen : i + 1 < 12 * years := by
    have h := (List.getElem?_eq_some.mp hb).1
    rwa [List.length_map, simulate_fresh_length] at h
  rw [List.getElem?_map, simulate_fresh_get cfg years i (by omega)] at ha
  rw [List.getElem?_map, simulate_fresh_get cfg years (i + 1) hlen] at hb
  simp only [Option.map_some', Option.some.injEq] at ha hb
  rw [← ha, ← hb]
  show round2 ((exactState cfg (initState cfg) (i + 1)).total_amount) ≤
    round2 ((exactState cfg (initState cfg) (i + 1 + 1)).total_amount)
  exact round2_mono
    (exactState_total_mono cfg (initState cfg) hfee hg hc hd hs (i + 1))

/-- Witness for C8 at the all-zero configuration, rows 0 and 1. -/
theorem c8_balance_monotone_witness :
    (cfgZero.management_fee = 0 ∧ (0 : ℝ) ≤ cfgZero.market_growth ∧
        (0 : ℝ) ≤ cfgZero.start_amount ∧
        (0 : ℝ) ≤ cfgZero.monthly_contribution ∧
        (0 : ℝ) ≤ cfgZero.dividend_yield ∧
        (((mkAccount cfgZero).simulate 1).data.map (fun p => p.2.total))[0]? =
          some (0 : ℝ) ∧
        (((mkAccount cfgZero).simulate 1).data.map (fun p => p.2.total))[0 + 1]? =
          some (0 : ℝ)) ∧
      (0 : ℝ) ≤ 0 := by
  have h0 : (((mkAccount cfgZero).simulate 1).data.map (fun p => p.2.total))[0]? =
      some (0 : ℝ) := by
    rw [List.getElem?_map, simulate_cfgZero_get 1 0 (by norm_num)]
    rfl
  have h1 : (((mkAccount cfgZero).simulate 1).data.map (fun p => p.2.total))[0 + 1]? =
      some (0 : ℝ) := by
    rw [List.getElem?_map, simulate_cfgZero_get 1 1 (by norm_num)]
    rfl
  exact ⟨⟨rfl, le_refl 0, le_refl 0, le_refl 0, le_refl 0, h0, h1⟩,
    c8_balance_monotone cfgZero 1 0 0 0 rfl (le_refl 0) (le_refl 0) (le_refl 0)
      (le_refl 0) h0 h1⟩

/-- C10: in every emitted row the "Frais de gestion" field equals the
"Montants totaux de frais de gestion" field: both store the same running
cumulative sum of all fees charged so far. -/
theorem c10_fee_columns_identical (cfg : Config) (years : Nat) :
    ((mkAccount cfg).simulate years).data.map (fun p => p.2.fees) =
      ((mkAccount cfg).simulate years).data.map (fun p => p.2.feesCumulative) := by
  apply List.map_congr_left
  intro p hp
  obtain ⟨i, hi⟩ := List.mem_iff_getElem?.mp hp
  have hlen : i < 12 * years := by
    have h := (List.getElem?_eq_some.mp hi).1
    rwa [simulate_fresh_length] at h
  rw [simulate_fresh_get cfg years i hlen] at hi
  have hp2 : p.2 = emittedRecord cfg (i % 12 + 1) (exactState cfg (initState cfg) i) := by
    injection hi with hi'
    rw [← hi']
  rw [hp2]
  show round2 ((exactState cfg (initState cfg) (i + 1)).total_fees) =
    round2 ((exactState cfg (initState cfg) (i + 1)).total_fees_cumulative)
  rw [exactState_fees_eq cfg (initState cfg) rfl (i + 1)]

end InterestsSimulator
